import Mathlib

/-!
Verification of the collection-and-aggregation pipeline of the Polymarket
activity collector (src/collector.py): paginated fetch, duplicate removal,
grouping by market slug, and the threshold-gated CSV persistence step.

Python dictionaries coming from the JSON API are modelled as a structure of
optional fields; a missing key is the value none.  The timestamp field can
carry a Python value of several runtime types, so it is modelled by a small
sum type.  File-system state is an explicit map from paths to contents, and
Python exceptions are modelled with Except.
-/

namespace Collect

/-- A Python runtime value as it can appear in the timestamp field:
absent (None), an integer, or a string. -/
inductive PyVal where
  | vNone
  | vInt (n : Int)
  | vStr (s : String)
deriving DecidableEq

/-- The nested market object that remove_duplicates probes for a slug
(the 2024 API shape, per the comment in group_by_market no longer used). -/
structure MarketObj where
  slug : Option String := none
deriving DecidableEq

/-- One activity record as returned by the remote endpoint; optional fields
model dict.get returning None for a missing key. -/
structure ActivityRecord where
  timestamp : PyVal := .vNone
  type : Option String := none
  side : Option String := none
  slug : Option String := none
  market : Option MarketObj := none
  transactionHash : Option String := none
  proxyWallet : Option String := none
  conditionId : Option String := none
  asset : Option String := none
  outcomeIndex : Option String := none
  outcome : Option String := none
  size : Option String := none
  usdcSize : Option String := none
  price : Option String := none
  title : Option String := none
  eventSlug : Option String := none
  icon : Option String := none
  name : Option String := none
  pseudonym : Option String := none
  bio : Option String := none
  profileImage : Option String := none
  profileImageOptimized : Option String := none
deriving DecidableEq

/-- The identity key built per record by remove_duplicates: the transaction
hash when truthy, otherwise the metadata tuple. -/
inductive DedupKey where
  | tx (h : String)
  | tuple (timestamp : PyVal) (type : Option String)
      (marketSlug : Option String) (side : Option String)
deriving DecidableEq

/-- The market component read by remove_duplicates: the slug of the nested
market object when the market field holds a dict, else nothing (matching the
source expression that probes activity.get of market for a slug). -/
def marketSlugOf (a : ActivityRecord) : Option String :=
  match a.market with
  | some m => m.slug
  | none => none

/-- Identity-key construction of remove_duplicates: tx_hash when truthy
(present and non-empty), else the tuple (timestamp, type, market slug, side). -/
def dedupKey (a : ActivityRecord) : DedupKey :=
  match a.transactionHash with
  | some h =>
      if h = "" then .tuple a.timestamp a.type (marketSlugOf a) a.side else .tx h
  | none => .tuple a.timestamp a.type (marketSlugOf a) a.side

/-- The left-to-right pass of remove_duplicates with its seen set of keys
(the set is modelled as the list of keys added so far). -/
def removeDupAux (seen : List DedupKey) : List ActivityRecord → List ActivityRecord
  | [] => []
  | a :: as =>
    if dedupKey a ∈ seen then removeDupAux seen as
    else a :: removeDupAux (dedupKey a :: seen) as

/-- remove_duplicates of src/collector.py. -/
def remove_duplicates (activities : List ActivityRecord) : List ActivityRecord :=
  removeDupAux [] activities

/-- The truthy slug used by group_by_market: the top-level slug field when it
is a non-empty string, else nothing (the record joins no group). -/
def truthySlug (a : ActivityRecord) : Option String :=
  match a.slug with
  | none => none
  | some s => if s = "" then none else some s

/-- Append a record to the group of key k in an insertion-ordered association
list, creating the group at the end when the key is new (defaultdict +
dict insertion order). -/
def insertGrouped (m : List (String × List ActivityRecord)) (k : String)
    (a : ActivityRecord) : List (String × List ActivityRecord) :=
  match m with
  | [] => [(k, [a])]
  | (k2, l) :: rest =>
    if k2 = k then (k2, l ++ [a]) :: rest else (k2, l) :: insertGrouped rest k a

/-- One iteration of the loop of group_by_market. -/
def groupStep (m : List (String × List ActivityRecord)) (a : ActivityRecord) :
    List (String × List ActivityRecord) :=
  match truthySlug a with
  | none => m
  | some s => insertGrouped m s a

/-- group_by_market of src/collector.py: a defaultdict(list) filled in input
order, returned with dict insertion order, modelled as an association list. -/
def group_by_market (activities : List ActivityRecord) :
    List (String × List ActivityRecord) :=
  activities.foldl groupStep []

/-- Lookup of one group by key (first entry wins, as in a dict). -/
def getGroup (m : List (String × List ActivityRecord)) (k : String) :
    List ActivityRecord :=
  match m with
  | [] => []
  | (k2, l) :: rest => if k2 = k then l else getGroup rest k

/-- Append a key to a key list when it is not yet present (dict key creation). -/
def addKey (ks : List String) (k : String) : List String :=
  if k ∈ ks then ks else ks ++ [k]

/-- First-occurrence order of a list of keys: the insertion order of the
corresponding dict keys. -/
def dedupFirst (l : List String) : List String := l.foldl addKey []

/-! Section: Persistence: save_market_to_csv -/

/-- Python truthiness of the timestamp value: None, 0 and the empty string
are falsy, everything else truthy. -/
def pyTruthyTs : PyVal → Bool
  | .vNone => false
  | .vInt n => n ≠ 0
  | .vStr s => s ≠ ""

/-- Whitespace characters stripped by int() around a numeric literal. -/
def isSpaceChar (c : Char) : Bool :=
  c == ' ' || c == '\t' || c == '\n' || c == '\r'

/-- Parse a character list the way int() accepts a string: optional
surrounding whitespace, an optional sign, then at least one decimal digit. -/
def parseIntChars (cs : List Char) : Option Int :=
  let t := ((cs.dropWhile isSpaceChar).reverse.dropWhile isSpaceChar).reverse
  match t with
  | [] => none
  | c :: rest =>
    let core : Int × List Char :=
      if c == '-' then (-1, rest)
      else if c == '+' then (1, rest)
      else (1, c :: rest)
    if core.2 ≠ [] ∧ core.2.all Char.isDigit then
      some (core.1 * (core.2.foldl (fun n d => n * 10 + (d.toNat - 48)) 0 : Nat))
    else none

/-- Parse a string the way int() accepts it. -/
def parseIntStr (s : String) : Option Int := parseIntChars s.toList

/-- The int() conversion applied to the raw timestamp (with default 0 for a
missing key): absent becomes 0, an integer passes through, a string is
parsed or raises ValueError. -/
def pyToInt : PyVal → Except String Int
  | .vNone => .ok 0
  | .vInt n => .ok n
  | .vStr s =>
    match parseIntStr s with
    | some n => .ok n
    | none => .error "ValueError"

/-- Zero-padded two-digit rendering of a calendar/clock component. -/
def pad2 (n : Nat) : String :=
  if n < 10 then "0" ++ toString n else toString n

/-- Zero-padded four-digit year as strftime renders %Y. -/
def padYear (y : Int) : String :=
  if y < 0 then "-" ++ toString (-y)
  else
    let n := y.toNat
    if n < 10 then "000" ++ toString n
    else if n < 100 then "00" ++ toString n
    else if n < 1000 then "0" ++ toString n
    else toString n

/-- Proleptic Gregorian date of a day count relative to 1970-01-01
(the civil-from-days algorithm used by every epoch-to-UTC conversion). -/
def civilFromDays (z : Int) : Int × Nat × Nat :=
  let z2 := z + 719468
  let era := z2.fdiv 146097
  let doe := (z2 - era * 146097).toNat
  let yoe := (doe - doe / 1460 + doe / 36524 - doe / 146096) / 365
  let y := (yoe : Int) + era * 400
  let doy := doe - (365 * yoe + yoe / 4 - yoe / 100)
  let mp := (5 * doy + 2) / 153
  let d := doy - (153 * mp + 2) / 5 + 1
  let m := if mp < 10 then mp + 3 else mp - 9
  (if m ≤ 2 then y + 1 else y, m, d)

/-- datetime.fromtimestamp at timezone.utc followed by strftime with the
format year-month-day space hour:minute:second, all zero padded. -/
def formatUTC (ts : Int) : String :=
  let days := ts.fdiv 86400
  let secs := (ts.emod 86400).toNat
  let c := civilFromDays days
  padYear c.1 ++ "-" ++ pad2 c.2.1 ++ "-" ++ pad2 c.2.2 ++ " " ++
    pad2 (secs / 3600) ++ ":" ++ pad2 (secs % 3600 / 60) ++ ":" ++ pad2 (secs % 60)

/-- The derived datetime cell: the UTC formatting of the parsed timestamp when
the raw timestamp is truthy, the empty string otherwise; parsing a truthy
non-numeric string raises. -/
def datetimeCell (ts : PyVal) : Except String String :=
  if pyTruthyTs ts then
    match pyToInt ts with
    | .error e => .error e
    | .ok n => .ok (formatUTC n)
  else .ok ""

/-- The raw timestamp cell: the timestamp value with default empty string,
rendered by the csv writer with str(). -/
def renderTs : PyVal → String
  | .vNone => ""
  | .vInt n => toString n
  | .vStr s => s

/-- The fixed CSV column schema. -/
def fieldnames : List String :=
  ["timestamp", "datetime", "type", "side", "proxyWallet", "conditionId",
   "asset", "outcomeIndex", "outcome", "size", "usdcSize", "price",
   "transactionHash", "title", "slug", "eventSlug", "icon", "name",
   "pseudonym", "bio", "profileImage", "profileImageOptimized"]

/-- The one row written for a record: every cell from dict.get with default
empty string, plus the derived datetime cell, which can raise. -/
def rowOf (a : ActivityRecord) : Except String (List String) :=
  match datetimeCell a.timestamp with
  | .error e => .error e
  | .ok dt =>
    .ok [renderTs a.timestamp, dt, a.type.getD "", a.side.getD "",
         a.proxyWallet.getD "", a.conditionId.getD "", a.asset.getD "",
         a.outcomeIndex.getD "", a.outcome.getD "", a.size.getD "",
         a.usdcSize.getD "", a.price.getD "", a.transactionHash.getD "",
         a.title.getD "", a.slug.getD "", a.eventSlug.getD "", a.icon.getD "",
         a.name.getD "", a.pseudonym.getD "", a.bio.getD "",
         a.profileImage.getD "", a.profileImageOptimized.getD ""]

/-- Minimal quoting of csv.writer: a field is quoted when it holds a comma,
a quote, or a line break. -/
def needsQuote (s : String) : Bool :=
  s.any (fun c => c == ',' || c == '"' || c == '\r' || c == '\n')

/-- Double each quote character, as csv quoting does inside a quoted field. -/
def escapeQuotes (s : String) : String :=
  s.foldl (fun acc c => if c == '"' then acc.push '"' |>.push '"' else acc.push c) ""

/-- Render a single CSV field with minimal quoting. -/
def csvField (s : String) : String :=
  if needsQuote s then "\"" ++ escapeQuotes s ++ "\"" else s

/-- Render one CSV row, comma separated and CRLF terminated. -/
def csvRow (cells : List String) : String :=
  String.intercalate "," (cells.map csvField) ++ "\r\n"

/-- Full file content: the header row followed by one row per record. -/
def csvContentOf (rows : List (List String)) : String :=
  csvRow fieldnames ++ String.join (rows.map csvRow)

/-- Number of records of a group whose type is the string TRADE. -/
def trade_count (activities : List ActivityRecord) : Nat :=
  activities.countP (fun a => a.type = some "TRADE")

/-- A file system: contents by path. -/
abbrev FS := String → Option String

/-- Writing opens the file with mode w: the previous content at the path is
replaced, everything else is untouched. -/
def writeFS (fs : FS) (path content : String) : FS :=
  fun p => if p = path then some content else fs p

/-- The empty file system. -/
def emptyFS : FS := fun _ => none

/-- The value save_market_to_csv returns: the skip report dict, or the path
of the written file; None (for an empty group) is the surrounding Option. -/
inductive SaveResult where
  | skippedInfo (slug : String) (trades : Nat)
  | written (filepath : String)
deriving DecidableEq

/-- A disk-failure oracle: the set of paths at which opening for write
raises an I/O error. -/
def noFail : String → Bool := fun _ => false

/-- The destination path of a group: output_dir joined with the slug plus the
csv extension. -/
def csvPath (output_dir market_slug : String) : String :=
  output_dir ++ "/" ++ market_slug ++ ".csv"

/-- The row-writing loop: rows are produced in group order, and the first
record with a malformed timestamp raises, aborting the rest. -/
def rowsOf : List ActivityRecord → Except String (List (List String))
  | [] => .ok []
  | a :: as =>
    match rowOf a with
    | .error e => .error e
    | .ok r =>
      match rowsOf as with
      | .error e => .error e
      | .ok rs => .ok (r :: rs)

/-- save_market_to_csv of src/collector.py: nothing for an empty group, the
skip report below 30 trades, otherwise write the whole group to
output_dir/slug.csv.  An I/O error at the path, or a ValueError from a
malformed timestamp, propagates as an exception. -/
def save_market_to_csv (failAt : String → Bool) (market_slug : String)
    (activities : List ActivityRecord) (output_dir : String) (fs : FS) :
    Except String (Option SaveResult × FS) :=
  if activities = [] then .ok (none, fs)
  else if trade_count activities < 30 then
    .ok (some (.skippedInfo market_slug (trade_count activities)), fs)
  else if failAt (csvPath output_dir market_slug) then .error "IOError"
  else
    match rowsOf activities with
    | .error e => .error e
    | .ok rows =>
      .ok (some (.written (csvPath output_dir market_slug)),
           writeFS fs (csvPath output_dir market_slug) (csvContentOf rows))

/-- Outcome of the per-group persistence loop of process_wallet: the error
that aborted it (if any), the file system afterwards, the saved count and
the skip reports. -/
structure RunSummary where
  err : Option String
  fs : FS
  saved : Nat
  skipped : List (String × Nat)

/-- The loop over markets.items() in process_wallet: each group is saved in
turn; an exception from save_market_to_csv propagates, aborting the loop
with the remaining groups unprocessed (there is no per-group handler). -/
def processGroups (failAt : String → Bool) (output_dir : String) :
    List (String × List ActivityRecord) → FS → Nat → List (String × Nat) → RunSummary
  | [], fs, saved, skipped => ⟨none, fs, saved, skipped⟩
  | (slug, acts) :: rest, fs, saved, skipped =>
    match save_market_to_csv failAt slug acts output_dir fs with
    | .error e => ⟨some e, fs, saved, skipped⟩
    | .ok (result, fs2) =>
      match result with
      | some (.skippedInfo s t) =>
          processGroups failAt output_dir rest fs2 saved (skipped ++ [(s, t)])
      | some (.written _) => processGroups failAt output_dir rest fs2 (saved + 1) skipped
      | none => processGroups failAt output_dir rest fs2 saved skipped

/-! Section: Fetcher: get_all_user_activity -/

/-- A remote source: the page of records for a given offset, or none for a
request-level failure (timeout, bad status, malformed payload). -/
abbrev Source := Nat → Option (List ActivityRecord)

/-- The pagination loop of get_all_user_activity.  The pair returned is the
accumulated records and the list of offsets at which page requests were
issued, in order.  The loop guard is the source line
while len(all_activities) < max_records and offset <= 10000. -/
def fetchLoop (source : Source) (maxRecords : Nat) (offset : Nat)
    (acc : List ActivityRecord) (reqs : List Nat) : List ActivityRecord × List Nat :=
  if h : acc.length < maxRecords ∧ offset ≤ 10000 then
    match source offset with
    | none => (acc, reqs ++ [offset])
    | some data =>
      if data.length = 0 then (acc, reqs ++ [offset])
      else if data.length < 500 then (acc ++ data, reqs ++ [offset])
      else fetchLoop source maxRecords (offset + 500) (acc ++ data) (reqs ++ [offset])
  else (acc, reqs)
termination_by 10001 - offset
decreasing_by omega

/-- get_all_user_activity of src/collector.py, with the network abstracted
into the source function; also reports the offsets requested. -/
def get_all_user_activity (source : Source) (max_records : Nat) :
    List ActivityRecord × List Nat :=
  fetchLoop source max_records 0 [] []

/-- process_wallet of src/collector.py over the pure pipeline: fetch, early
return on no data, dedup, group, then the persistence loop. -/
def process_wallet (source : Source) (max_records : Nat) (failAt : String → Bool)
    (output_dir : String) (fs : FS) : RunSummary :=
  let activities := (get_all_user_activity source max_records).1
  if activities = [] then ⟨none, fs, 0, []⟩
  else
    let markets := group_by_market (remove_duplicates activities)
    processGroups failAt output_dir markets fs 0 []

/-- The blank record: every field missing. -/
def blankRec : ActivityRecord := {}

/-- A minimal transactional record. -/
def tradeRec : ActivityRecord := { type := some "TRADE" }

/-- A source whose every page is 500 blank records. -/
def fullSource : Source := fun _ => some (List.replicate 500 blankRec)

/-! Section: Lemmas about remove_duplicates -/

theorem removeDupAux_sublist (seen : List DedupKey) (l : List ActivityRecord) :
    (removeDupAux seen l).Sublist l := by
  induction l generalizing seen with
  | nil => simp [removeDupAux]
  | cons a as ih =>
    simp only [removeDupAux]
    split
    · exact (ih seen).trans (List.sublist_cons_self a as)
    · exact (ih _).cons₂ a

theorem removeDupAux_filter_of_mem (k : DedupKey) (l : List ActivityRecord) :
    ∀ seen : List DedupKey, k ∈ seen →
      (removeDupAux seen l).filter (fun a => decide (dedupKey a = k)) = [] := by
  induction l with
  | nil => intro seen _; simp [removeDupAux]
  | cons a as ih =>
    intro seen hk
    simp only [removeDupAux]
    split
    · exact ih seen hk
    · rename_i hna
      have hne : ¬ dedupKey a = k := fun he => hna (he ▸ hk)
      simp [List.filter_cons, hne, ih _ (List.mem_cons_of_mem _ hk)]

theorem removeDupAux_filter_of_not_mem (k : DedupKey) (l : List ActivityRecord) :
    ∀ seen : List DedupKey, k ∉ seen →
      (removeDupAux seen l).filter (fun a => decide (dedupKey a = k)) =
        (l.find? (fun a => decide (dedupKey a = k))).toList := by
  induction l with
  | nil => intro seen _; simp [removeDupAux]
  | cons a as ih =>
    intro seen hk
    by_cases hak : dedupKey a = k
    · have hnotin : dedupKey a ∉ seen := by rw [hak]; exact hk
      simp [removeDupAux, if_neg hnotin, List.filter_cons, hak,
        List.find?_cons_of_pos _ (show (fun x => decide (dedupKey x = k)) a = true by
          simp [hak])]
      rw [if_neg hk]
      simp [List.filter_cons, hak,
        removeDupAux_filter_of_mem k as (k :: seen) (List.mem_cons_self k seen)]
    · simp only [removeDupAux]
      have hfind : ((a :: as).find? (fun x => decide (dedupKey x = k))) =
          as.find? (fun x => decide (dedupKey x = k)) :=
        List.find?_cons_of_neg _ (by simp [hak])
      rw [hfind]
      split
      · exact ih seen hk
      · have hknot : k ∉ dedupKey a :: seen := by
          intro hmem
          rcases List.mem_cons.mp hmem with he | hs
          · exact hak he.symm
          · exact hk hs
        simp [List.filter_cons, hak, ih _ hknot]

theorem dedupKey_of_hash {r : ActivityRecord} {h : String} (hh : h ≠ "")
    (hr : r.transactionHash = some h) : dedupKey r = .tx h := by
  simp [dedupKey, hr, hh]

/-- Claim C6: remove_duplicates returns a subsequence of its input (so the
original order among retained records is preserved); for every identity key
the retained records with that key are exactly the first input record
carrying it; in particular all records sharing one non-empty transaction
hash collapse to the first of them. -/
theorem remove_duplicates_spec (acts : List ActivityRecord) :
    (remove_duplicates acts).Sublist acts ∧
    (∀ k : DedupKey,
      (remove_duplicates acts).filter (fun a => decide (dedupKey a = k)) =
        (acts.find? (fun a => decide (dedupKey a = k))).toList) ∧
    (∀ h : String, h ≠ "" → ∀ r ∈ acts, r.transactionHash = some h →
      ∃ b, acts.find? (fun a => decide (dedupKey a = DedupKey.tx h)) = some b ∧
        (remove_duplicates acts).filter
          (fun a => decide (dedupKey a = DedupKey.tx h)) = [b]) := by
  refine ⟨removeDupAux_sublist [] acts, ?_, ?_⟩
  · intro k
    exact removeDupAux_filter_of_not_mem k acts [] (by simp)
  · intro h hh r hr hrh
    have hkey : dedupKey r = .tx h := dedupKey_of_hash hh hrh
    have hne : acts.find? (fun a => decide (dedupKey a = DedupKey.tx h)) ≠ none := by
      rw [Ne, List.find?_eq_none]
      push_neg
      exact ⟨r, hr, by simp [hkey]⟩
    obtain ⟨b, hb⟩ := Option.ne_none_iff_exists.mp hne
    refine ⟨b, hb.symm, ?_⟩
    have hgen := removeDupAux_filter_of_not_mem (DedupKey.tx h) acts [] (by simp)
    simp only [remove_duplicates]
    rw [hgen, ← hb]
    rfl

/-- Two records sharing a transaction hash. -/
def recA : ActivityRecord := { transactionHash := some "h1", side := some "BUY" }

/-- The later record with the same transaction hash. -/
def recB : ActivityRecord := { transactionHash := some "h1", side := some "SELL" }

/-- The concrete duplicate batch of the witness. -/
def dupBatch : List ActivityRecord := [recA, recB]

theorem remove_duplicates_spec_witness :
    (remove_duplicates dupBatch).Sublist dupBatch ∧
    (remove_duplicates dupBatch).filter
      (fun a => decide (dedupKey a = DedupKey.tx "h1")) = [recA] := by
  refine ⟨(remove_duplicates_spec dupBatch).1, ?_⟩
  obtain ⟨b, hb, hfil⟩ :=
    (remove_duplicates_spec dupBatch).2.2 "h1" (by decide) recA
      (by simp [dupBatch]) rfl
  have hfind : dupBatch.find? (fun a => decide (dedupKey a = DedupKey.tx "h1")) =
      some recA := by rfl
  rw [hfind] at hb
  cases hb
  exact hfil

/-- The two structural records of claim C1: no transaction hash, identical
timestamp, type and side, different grouper slug, no nested market object. -/
def splitRecA : ActivityRecord :=
  { timestamp := .vInt 100, type := some "SPLIT", slug := some "market-a" }

/-- Same metadata as splitRecA except for the grouper slug. -/
def splitRecB : ActivityRecord :=
  { timestamp := .vInt 100, type := some "SPLIT", slug := some "market-b" }

/-- Claim C1 (code bug): the fallback identity key reads the slug of the
nested market object, not the top-level slug the Grouper keys on (which the
comment in group_by_market documents as where the API puts it).  Two
structural records differing only in their grouper key therefore share one
identity key and collapse to the first, while the claim says both are kept. -/
theorem dedup_key_ignores_grouper_slug :
    truthySlug splitRecA = some "market-a" ∧
    truthySlug splitRecB = some "market-b" ∧
    dedupKey splitRecA = dedupKey splitRecB ∧
    remove_duplicates [splitRecA, splitRecB] = [splitRecA] := by
  refine ⟨rfl, rfl, rfl, ?_⟩
  rfl

/-! Section: Lemmas about group_by_market -/

theorem getGroup_insertGrouped (m : List (String × List ActivityRecord))
    (k : String) (a : ActivityRecord) (k2 : String) :
    getGroup (insertGrouped m k a) k2 =
      getGroup m k2 ++ (if k = k2 then [a] else []) := by
  induction m with
  | nil =>
    by_cases hk : k = k2 <;> simp [insertGrouped, getGroup, hk]
  | cons p rest ih =>
    obtain ⟨k3, l⟩ := p
    by_cases h3 : k3 = k
    · subst h3
      by_cases h2 : k3 = k2
      · subst h2
        simp [insertGrouped, getGroup]
      · simp [insertGrouped, getGroup, h2]
    · by_cases h2 : k3 = k2
      · subst h2
        have hne : ¬ k = k3 := fun he => h3 he.symm
        simp [insertGrouped, getGroup, h3, hne]
      · simp [insertGrouped, getGroup, h3, h2, ih]

theorem getGroup_groupStep (m : List (String × List ActivityRecord))
    (a : ActivityRecord) (k : String) :
    getGroup (groupStep m a) k =
      getGroup m k ++ (if truthySlug a = some k then [a] else []) := by
  unfold groupStep
  cases hs : truthySlug a with
  | none => simp
  | some s =>
    rw [getGroup_insertGrouped]
    by_cases hk : s = k
    · simp [hk]
    · have : ¬ (some s = some k) := by simp [hk]
      simp [hk, this]

theorem keys_insertGrouped (m : List (String × List ActivityRecord))
    (k : String) (a : ActivityRecord) :
    (insertGrouped m k a).map Prod.fst = addKey (m.map Prod.fst) k := by
  induction m with
  | nil => simp [insertGrouped, addKey]
  | cons p rest ih =>
    obtain ⟨k3, l⟩ := p
    by_cases h3 : k3 = k
    · subst h3
      simp [insertGrouped, addKey]
    · have hne : ¬ k = k3 := fun he => h3 he.symm
      by_cases hmem : k ∈ rest.map Prod.fst
      · simp [insertGrouped, addKey, h3, hne, hmem, ih]
      · simp [insertGrouped, addKey, h3, hne, hmem, ih]

theorem keys_groupStep (m : List (String × List ActivityRecord))
    (a : ActivityRecord) :
    (groupStep m a).map Prod.fst =
      (match truthySlug a with
       | none => m.map Prod.fst
       | some s => addKey (m.map Prod.fst) s) := by
  unfold groupStep
  cases truthySlug a with
  | none => rfl
  | some s => exact keys_insertGrouped m s a

theorem getGroup_foldl (acts : List ActivityRecord) :
    ∀ m k, getGroup (acts.foldl groupStep m) k =
      getGroup m k ++ acts.filter (fun a => decide (truthySlug a = some k)) := by
  induction acts with
  | nil => intro m k; simp
  | cons a as ih =>
    intro m k
    simp only [List.foldl_cons]
    rw [ih (groupStep m a) k, getGroup_groupStep]
    by_cases hs : truthySlug a = some k
    · simp [List.filter_cons, hs]
    · simp [List.filter_cons, hs]

theorem keys_foldl (acts : List ActivityRecord) :
    ∀ m, ((acts.foldl groupStep m).map Prod.fst) =
      (acts.filterMap truthySlug).foldl addKey (m.map Prod.fst) := by
  induction acts with
  | nil => intro m; simp
  | cons a as ih =>
    intro m
    simp only [List.foldl_cons]
    rw [ih (groupStep m a), keys_groupStep]
    cases hs : truthySlug a with
    | none => simp [List.filterMap_cons, hs]
    | some s => simp [List.filterMap_cons, hs]

theorem addKey_nodup {ks : List String} (h : ks.Nodup) (k : String) :
    (addKey ks k).Nodup := by
  unfold addKey
  split
  · exact h
  · rename_i hnm
    rw [List.nodup_append]
    exact ⟨h, List.nodup_singleton k, by simpa using fun hk => hnm hk⟩

theorem foldl_addKey_nodup (l : List String) :
    ∀ ks : List String, ks.Nodup → (l.foldl addKey ks).Nodup := by
  induction l with
  | nil => intro ks h; exact h
  | cons x xs ih =>
    intro ks h
    exact ih _ (addKey_nodup h x)

/-- Claim C7: group_by_market is a partition of the records with a truthy
slug.  The group of each key is exactly the in-order sublist of input records
carrying that slug (so records with an absent or empty slug are in no group
and retained records are in exactly the group named by their key, in input
order), the keys are pairwise distinct, and the groups iterate in the order
in which each slug was first encountered. -/
theorem group_by_market_spec (acts : List ActivityRecord) :
    (∀ k, getGroup (group_by_market acts) k =
        acts.filter (fun a => decide (truthySlug a = some k))) ∧
    ((group_by_market acts).map Prod.fst).Nodup ∧
    ((group_by_market acts).map Prod.fst) = dedupFirst (acts.filterMap truthySlug) ∧
    (∀ a ∈ acts, ∀ k, truthySlug a = some k → a ∈ getGroup (group_by_market acts) k) ∧
    (∀ a ∈ acts, truthySlug a = none → ∀ k, a ∉ getGroup (group_by_market acts) k) := by
  have hget : ∀ k, getGroup (group_by_market acts) k =
      acts.filter (fun a => decide (truthySlug a = some k)) := by
    intro k
    have := getGroup_foldl acts [] k
    simpa [group_by_market, getGroup] using this
  have hkeys : ((group_by_market acts).map Prod.fst) =
      dedupFirst (acts.filterMap truthySlug) := by
    have := keys_foldl acts []
    simpa [group_by_market, dedupFirst] using this
  refine ⟨hget, ?_, hkeys, ?_, ?_⟩
  · rw [hkeys]
    exact foldl_addKey_nodup _ [] List.nodup_nil
  · intro a ha k hk
    rw [hget k]
    exact List.mem_filter.mpr ⟨ha, by simp [hk]⟩
  · intro a _ hnone k hmem
    rw [hget k] at hmem
    have := (List.mem_filter.mp hmem).2
    simp [hnone] at this

/-- A record with an empty slug, which must join no group. -/
def noSlugRec : ActivityRecord := { slug := some "", type := some "MERGE" }

theorem group_by_market_spec_witness :
    getGroup (group_by_market [splitRecA, noSlugRec, splitRecB]) "market-b" =
        [splitRecB] ∧
    splitRecA ∈ getGroup (group_by_market [splitRecA, noSlugRec, splitRecB]) "market-a" ∧
    (∀ k, noSlugRec ∉ getGroup (group_by_market [splitRecA, noSlugRec, splitRecB]) k) := by
  refine ⟨?_, ?_, ?_⟩
  · rw [(group_by_market_spec [splitRecA, noSlugRec, splitRecB]).1 "market-b"]
    rfl
  · exact (group_by_market_spec [splitRecA, noSlugRec, splitRecB]).2.2.2.1 splitRecA
      (by simp) "market-a" rfl
  · exact fun k => (group_by_market_spec [splitRecA, noSlugRec, splitRecB]).2.2.2.2
      noSlugRec (by simp) rfl k

/-! Section: Lemmas about save_market_to_csv -/

theorem rowsOf_ok_length :
    ∀ (acts : List ActivityRecord) (rows : List (List String)),
      rowsOf acts = .ok rows → rows.length = acts.length := by
  intro acts
  induction acts with
  | nil =>
    intro rows h
    simp only [rowsOf] at h
    cases h
    rfl
  | cons a as ih =>
    intro rows h
    simp only [rowsOf] at h
    cases hra : rowOf a with
    | error e => rw [hra] at h; cases h
    | ok r =>
      rw [hra] at h
      cases hrs : rowsOf as with
      | error e => rw [hrs] at h; cases h
      | ok rs =>
        rw [hrs] at h
        cases h
        simp [ih rs hrs]

theorem writeFS_self (fs : FS) (p c : String) : writeFS fs p c p = some c := by
  simp [writeFS]

theorem writeFS_idem (fs : FS) (p c : String) :
    writeFS (writeFS fs p c) p c = writeFS fs p c := by
  funext q
  unfold writeFS
  by_cases hq : q = p <;> simp [hq]

/-- Claim C5: for a nonempty group the gate counts the TRADE records; at
most 29 of them means the skip report with that count is returned and the
file system is untouched, while at least 30 means the whole group (one row
per record, in order) is written to the file named after the group key. -/
theorem threshold_gate_spec (market_slug : String) (acts : List ActivityRecord)
    (output_dir : String) (fs : FS) (hne : acts ≠ []) :
    (trade_count acts ≤ 29 →
      save_market_to_csv noFail market_slug acts output_dir fs =
        .ok (some (.skippedInfo market_slug (trade_count acts)), fs)) ∧
    (∀ rows, 30 ≤ trade_count acts → rowsOf acts = .ok rows →
      rows.length = acts.length ∧
      save_market_to_csv noFail market_slug acts output_dir fs =
        .ok (some (.written (csvPath output_dir market_slug)),
             writeFS fs (csvPath output_dir market_slug) (csvContentOf rows))) := by
  constructor
  · intro hle
    unfold save_market_to_csv
    rw [if_neg hne, if_pos (by omega)]
  · intro rows h30 hro
    refine ⟨rowsOf_ok_length acts rows hro, ?_⟩
    unfold save_market_to_csv
    rw [if_neg hne, if_neg (by omega)]
    simp [noFail, hro]

/-- A group of exactly 29 transactional records. -/
def acts29 : List ActivityRecord := List.replicate 29 tradeRec

/-- A group of exactly 30 transactional records. -/
def acts30 : List ActivityRecord := List.replicate 30 tradeRec

theorem threshold_gate_spec_witness :
    save_market_to_csv noFail "m" acts29 "out" emptyFS =
      .ok (some (.skippedInfo "m" 29), emptyFS) ∧
    (∃ rows, rowsOf acts30 = .ok rows ∧ rows.length = acts30.length ∧
      save_market_to_csv noFail "m" acts30 "out" emptyFS =
        .ok (some (.written (csvPath "out" "m")),
             writeFS emptyFS (csvPath "out" "m") (csvContentOf rows))) := by
  constructor
  · have h := (threshold_gate_spec "m" acts29 "out" emptyFS (by decide)).1 (by decide)
    have hc : trade_count acts29 = 29 := by decide
    rw [hc] at h
    exact h
  · obtain ⟨rows, hrows⟩ : ∃ rows, rowsOf acts30 = .ok rows := ⟨_, rfl⟩
    obtain ⟨hlen, hsave⟩ :=
      (threshold_gate_spec "m" acts30 "out" emptyFS (by decide)).2 rows (by decide) hrows
    exact ⟨rows, hrows, hlen, hsave⟩

/-- Claim C9: rerunning the gate on the file system it produced returns the
identical result and changes nothing (the destination is overwritten, never
appended to), and whenever two runs from arbitrary prior file-system states
both write, they write the same path with byte-identical content, which is
therefore a function of the group records alone. -/
theorem save_idempotent_deterministic (failAt : String → Bool)
    (market_slug : String) (acts : List ActivityRecord) (output_dir : String) :
    (∀ fs r fs2, save_market_to_csv failAt market_slug acts output_dir fs = .ok (r, fs2) →
      save_market_to_csv failAt market_slug acts output_dir fs2 = .ok (r, fs2)) ∧
    (∀ fsA fsA2 fsB fsB2 pA pB,
      save_market_to_csv failAt market_slug acts output_dir fsA =
        .ok (some (.written pA), fsA2) →
      save_market_to_csv failAt market_slug acts output_dir fsB =
        .ok (some (.written pB), fsB2) →
      pA = pB ∧ fsA2 pA = fsB2 pB) := by
  constructor
  · intro fs r fs2 hsave
    unfold save_market_to_csv at hsave ⊢
    by_cases he : acts = []
    · rw [if_pos he] at hsave ⊢
      cases hsave
      rfl
    · rw [if_neg he] at hsave ⊢
      by_cases hlt : trade_count acts < 30
      · rw [if_pos hlt] at hsave ⊢
        cases hsave
        rfl
      · rw [if_neg hlt] at hsave ⊢
        by_cases hf : failAt (csvPath output_dir market_slug) = true
        · rw [if_pos hf] at hsave
          cases hsave
        · rw [if_neg hf] at hsave ⊢
          cases hro : rowsOf acts with
          | error e => rw [hro] at hsave; cases hsave
          | ok rows =>
            rw [hro] at hsave
            cases hsave
            exact congrArg
              (fun g => Except.ok (some (SaveResult.written (csvPath output_dir market_slug)), g))
              (writeFS_idem fs (csvPath output_dir market_slug) (csvContentOf rows))
  · intro fsA fsA2 fsB fsB2 pA pB hA hB
    unfold save_market_to_csv at hA hB
    by_cases he : acts = []
    · rw [if_pos he] at hA
      cases hA
    · rw [if_neg he] at hA hB
      by_cases hlt : trade_count acts < 30
      · rw [if_pos hlt] at hA
        cases hA
      · rw [if_neg hlt] at hA hB
        by_cases hf : failAt (csvPath output_dir market_slug) = true
        · rw [if_pos hf] at hA
          cases hA
        · rw [if_neg hf] at hA hB
          cases hro : rowsOf acts with
          | error e => rw [hro] at hA; cases hA
          | ok rows =>
            rw [hro] at hA hB
            cases hA
            cases hB
            exact ⟨rfl, by rw [writeFS_self, writeFS_self]⟩

theorem save_idempotent_witness :
    ∃ r fs2, save_market_to_csv noFail "m" acts30 "out" emptyFS = .ok (r, fs2) ∧
      save_market_to_csv noFail "m" acts30 "out" fs2 = .ok (r, fs2) := by
  obtain ⟨r, fs2, hsave⟩ :
      ∃ r fs2, save_market_to_csv noFail "m" acts30 "out" emptyFS = .ok (r, fs2) :=
    ⟨_, _, rfl⟩
  exact ⟨r, fs2, hsave,
    (save_idempotent_deterministic noFail "m" acts30 "out").1 emptyFS r fs2 hsave⟩

/-! Section: The datetime cell (claim C4) -/

/-- A transactional record with a truthy but non-numeric timestamp. -/
def badTsRec : ActivityRecord := { timestamp := .vStr "oops", type := some "TRADE" }

/-- Claim C4 is false on the code: the timestamp 0 is a parseable epoch
second, yet the gate renders an empty cell instead of its UTC formatting;
and a truthy unparseable timestamp is not recovered with an empty cell but
raises a ValueError that aborts the whole write of the group. -/
theorem datetime_cell_not_recovered :
    datetimeCell (.vInt 0) = .ok "" ∧
    formatUTC 0 = "1970-01-01 00:00:00" ∧
    datetimeCell (.vStr "oops") = .error "ValueError" ∧
    save_market_to_csv noFail "m" (acts30 ++ [badTsRec]) "out" emptyFS =
      .error "ValueError" := by
  refine ⟨rfl, rfl, rfl, ?_⟩
  rfl

/-- Claim C4 as amended: a record whose raw timestamp is falsy (absent, the
integer 0 or the empty string) gets an empty datetime cell and its row is
still produced; a record with a truthy integer timestamp gets that epoch
second formatted in UTC; only a truthy unparseable timestamp raises. -/
theorem datetime_cell_spec (a : ActivityRecord) :
    (pyTruthyTs a.timestamp = false →
      ∃ cells, rowOf a = .ok cells ∧ cells[1]? = some "") ∧
    (∀ n : Int, a.timestamp = .vInt n → n ≠ 0 →
      ∃ cells, rowOf a = .ok cells ∧ cells[1]? = some (formatUTC n)) := by
  constructor
  · intro hf
    have hdt : datetimeCell a.timestamp = .ok "" := by
      simp [datetimeCell, hf]
    unfold rowOf
    rw [hdt]
    exact ⟨_, rfl, rfl⟩
  · intro n hn hnz
    have hdt : datetimeCell a.timestamp = .ok (formatUTC n) := by
      simp [datetimeCell, pyTruthyTs, hn, hnz, pyToInt]
    unfold rowOf
    rw [hdt]
    exact ⟨_, rfl, rfl⟩

/-- A record carrying a truthy epoch timestamp. -/
def stampedRec : ActivityRecord := { timestamp := .vInt 1700000000, type := some "TRADE" }

theorem datetime_cell_spec_witness :
    (∃ cells, rowOf blankRec = .ok cells ∧ cells[1]? = some "") ∧
    (∃ cells, rowOf stampedRec = .ok cells ∧ cells[1]? = some (formatUTC 1700000000)) :=
  ⟨(datetime_cell_spec blankRec).1 rfl,
   (datetime_cell_spec stampedRec).2 1700000000 rfl (by norm_num)⟩

/-! Section: The persistence loop of process_wallet (claim C2) -/

/-- First group of the failing run: 30 trades in market m1. -/
def marketActsA : List ActivityRecord :=
  List.replicate 30 { type := some "TRADE", slug := some "m1" }

/-- Second group of the failing run: 30 trades in market m2. -/
def marketActsB : List ActivityRecord :=
  List.replicate 30 { type := some "TRADE", slug := some "m2" }

/-- A disk that fails exactly on the destination file of the first group. -/
def failFirst : String → Bool := fun p => p == "out/m1.csv"

/-- Claim C2 is false on the code (and the spec states the intent): the loop
in process_wallet has no per-group exception handler, so when writing the
first group raises an I/O error the loop aborts and the second group — which
meets the threshold and would be written on its own — is never persisted. -/
theorem persistence_failure_aborts_loop :
    trade_count marketActsA = 30 ∧
    trade_count marketActsB = 30 ∧
    (processGroups failFirst "out" [("m1", marketActsA), ("m2", marketActsB)]
        emptyFS 0 []).err = some "IOError" ∧
    (processGroups failFirst "out" [("m1", marketActsA), ("m2", marketActsB)]
        emptyFS 0 []).saved = 0 ∧
    (processGroups failFirst "out" [("m1", marketActsA), ("m2", marketActsB)]
        emptyFS 0 []).fs "out/m2.csv" = none ∧
    (processGroups failFirst "out" [("m2", marketActsB)] emptyFS 0 []).err = none ∧
    (processGroups failFirst "out" [("m2", marketActsB)] emptyFS 0 []).saved = 1 ∧
    ((processGroups failFirst "out" [("m2", marketActsB)] emptyFS 0 []).fs
        "out/m2.csv").isSome = true := by
  exact ⟨rfl, rfl, rfl, rfl, rfl, rfl, rfl, rfl⟩

/-! Section: Lemmas about the pagination loop -/

theorem fetchLoop_stop (source : Source) (maxRecords offset : Nat)
    (acc : List ActivityRecord) (reqs : List Nat)
    (hg : ¬ (acc.length < maxRecords ∧ offset ≤ 10000)) :
    fetchLoop source maxRecords offset acc reqs = (acc, reqs) := by
  rw [fetchLoop.eq_def, dif_neg hg]

theorem fetchLoop_step_err (source : Source) (maxRecords offset : Nat)
    (acc : List ActivityRecord) (reqs : List Nat)
    (hg : acc.length < maxRecords) (ho : offset ≤ 10000)
    (hs : source offset = none) :
    fetchLoop source maxRecords offset acc reqs = (acc, reqs ++ [offset]) := by
  rw [fetchLoop.eq_def, dif_pos ⟨hg, ho⟩]
  simp [hs]

theorem fetchLoop_step_empty (source : Source) (maxRecords offset : Nat)
    (acc : List ActivityRecord) (reqs : List Nat) (data : List ActivityRecord)
    (hg : acc.length < maxRecords) (ho : offset ≤ 10000)
    (hs : source offset = some data) (hd : data.length = 0) :
    fetchLoop source maxRecords offset acc reqs = (acc, reqs ++ [offset]) := by
  rw [fetchLoop.eq_def, dif_pos ⟨hg, ho⟩]
  simp [hs, hd]

theorem fetchLoop_step_full (source : Source) (maxRecords offset : Nat)
    (acc : List ActivityRecord) (reqs : List Nat) (data : List ActivityRecord)
    (hg : acc.length < maxRecords) (ho : offset ≤ 10000)
    (hs : source offset = some data) (hd0 : data.length ≠ 0)
    (hds : ¬ data.length < 500) :
    fetchLoop source maxRecords offset acc reqs =
      fetchLoop source maxRecords (offset + 500) (acc ++ data) (reqs ++ [offset]) := by
  rw [fetchLoop.eq_def, dif_pos ⟨hg, ho⟩]
  simp [hs, hd0, hds]

theorem fetchLoop_step_short (source : Source) (maxRecords offset : Nat)
    (acc : List ActivityRecord) (reqs : List Nat) (data : List ActivityRecord)
    (hg : acc.length < maxRecords) (ho : offset ≤ 10000)
    (hs : source offset = some data) (hd0 : data.length ≠ 0) (hds : data.length < 500) :
    fetchLoop source maxRecords offset acc reqs = (acc ++ data, reqs ++ [offset]) := by
  rw [fetchLoop.eq_def, dif_pos ⟨hg, ho⟩]
  simp [hs, hd0, hds]

theorem fetchLoop_offsets_le (source : Source) (maxRecords : Nat) :
    ∀ (n offset : Nat) (acc : List ActivityRecord) (reqs : List Nat),
      10001 - offset ≤ n → (∀ o ∈ reqs, o ≤ 10000) →
      ∀ o ∈ (fetchLoop source maxRecords offset acc reqs).2, o ≤ 10000 := by
  intro n
  induction n with
  | zero =>
    intro offset acc reqs hn hreqs o ho
    rw [fetchLoop_stop source maxRecords offset acc reqs (by omega)] at ho
    exact hreqs o ho
  | succ n ih =>
    intro offset acc reqs hn hreqs o ho
    by_cases hg : acc.length < maxRecords ∧ offset ≤ 10000
    · have hreqs2 : ∀ x ∈ reqs ++ [offset], x ≤ 10000 := by
        intro x hx
        rcases List.mem_append.mp hx with h1 | h2
        · exact hreqs x h1
        · have : x = offset := by simpa using h2
          omega
      cases hsrc : source offset with
      | none =>
        rw [fetchLoop_step_err source maxRecords offset acc reqs hg.1 hg.2 hsrc] at ho
        exact hreqs2 o ho
      | some data =>
        by_cases h0 : data.length = 0
        · rw [fetchLoop_step_empty source maxRecords offset acc reqs data
            hg.1 hg.2 hsrc h0] at ho
          exact hreqs2 o ho
        · by_cases hlt : data.length < 500
          · rw [fetchLoop_step_short source maxRecords offset acc reqs data
              hg.1 hg.2 hsrc h0 hlt] at ho
            exact hreqs2 o ho
          · rw [fetchLoop_step_full source maxRecords offset acc reqs data
              hg.1 hg.2 hsrc h0 hlt] at ho
            exact ih (offset + 500) (acc ++ data) (reqs ++ [offset]) (by omega) hreqs2 o ho
    · rw [fetchLoop_stop source maxRecords offset acc reqs hg] at ho
      exact hreqs o ho

theorem fetchLoop_reqs_count (source : Source) (maxRecords : Nat) :
    ∀ (n offset : Nat) (acc : List ActivityRecord) (reqs : List Nat),
      10001 - offset ≤ n → offset % 500 = 0 →
      (fetchLoop source maxRecords offset acc reqs).2.length ≤
        reqs.length + (10500 - offset) / 500 := by
  intro n
  induction n with
  | zero =>
    intro offset acc reqs hn hmod
    rw [fetchLoop_stop source maxRecords offset acc reqs (by omega)]
    show reqs.length ≤ reqs.length + (10500 - offset) / 500
    omega
  | succ n ih =>
    intro offset acc reqs hn hmod
    by_cases hg : acc.length < maxRecords ∧ offset ≤ 10000
    · have hone : 1 ≤ (10500 - offset) / 500 := by omega
      cases hsrc : source offset with
      | none =>
        rw [fetchLoop_step_err source maxRecords offset acc reqs hg.1 hg.2 hsrc]
        show (reqs ++ [offset]).length ≤ reqs.length + (10500 - offset) / 500
        simp only [List.length_append, List.length_singleton]
        omega
      | some data =>
        by_cases h0 : data.length = 0
        · rw [fetchLoop_step_empty source maxRecords offset acc reqs data hg.1 hg.2 hsrc h0]
          show (reqs ++ [offset]).length ≤ reqs.length + (10500 - offset) / 500
          simp only [List.length_append, List.length_singleton]
          omega
        · by_cases hlt : data.length < 500
          · rw [fetchLoop_step_short source maxRecords offset acc reqs data
              hg.1 hg.2 hsrc h0 hlt]
            show (reqs ++ [offset]).length ≤ reqs.length + (10500 - offset) / 500
            simp only [List.length_append, List.length_singleton]
            omega
          · rw [fetchLoop_step_full source maxRecords offset acc reqs data
              hg.1 hg.2 hsrc h0 hlt]
            have hrec := ih (offset + 500) (acc ++ data) (reqs ++ [offset])
              (by omega) (by omega)
            simp only [List.length_append, List.length_singleton] at hrec
            have hdiv : (10500 - (offset + 500)) / 500 + 1 ≤ (10500 - offset) / 500 := by
              omega
            omega
    · rw [fetchLoop_stop source maxRecords offset acc reqs hg]
      show reqs.length ≤ reqs.length + (10500 - offset) / 500
      omega

theorem fetchLoop_length_bound (source : Source) (maxRecords : Nat)
    (hpage : ∀ o p, source o = some p → p.length ≤ 500) :
    ∀ (n offset : Nat) (acc : List ActivityRecord) (reqs : List Nat),
      10001 - offset ≤ n → acc.length ≤ maxRecords + 499 →
      (fetchLoop source maxRecords offset acc reqs).1.length ≤ maxRecords + 499 := by
  intro n
  induction n with
  | zero =>
    intro offset acc reqs hn hacc
    rw [fetchLoop_stop source maxRecords offset acc reqs (by omega)]
    exact hacc
  | succ n ih =>
    intro offset acc reqs hn hacc
    by_cases hg : acc.length < maxRecords ∧ offset ≤ 10000
    · cases hsrc : source offset with
      | none =>
        rw [fetchLoop_step_err source maxRecords offset acc reqs hg.1 hg.2 hsrc]
        exact hacc
      | some data =>
        have hdlen := hpage offset data hsrc
        have hext : (acc ++ data).length ≤ maxRecords + 499 := by
          have := hg.1
          simp only [List.length_append]
          omega
        by_cases h0 : data.length = 0
        · rw [fetchLoop_step_empty source maxRecords offset acc reqs data hg.1 hg.2 hsrc h0]
          exact hacc
        · by_cases hlt : data.length < 500
          · rw [fetchLoop_step_short source maxRecords offset acc reqs data
              hg.1 hg.2 hsrc h0 hlt]
            exact hext
          · rw [fetchLoop_step_full source maxRecords offset acc reqs data
              hg.1 hg.2 hsrc h0 hlt]
            exact ih (offset + 500) (acc ++ data) (reqs ++ [offset]) (by omega) hext
    · rw [fetchLoop_stop source maxRecords offset acc reqs hg]
      exact hacc

/-- Closed form of the loop against the always-full source with a budget of
20000: starting at offset 500 j with 500 j records accumulated, the loop
requests every offset 500 j, 500 (j+1), ..., 10000 and then stops. -/
theorem fullSource_loop :
    ∀ (d j : Nat) (acc : List ActivityRecord) (reqs : List Nat), j + d = 21 →
      acc.length = 500 * j →
      fetchLoop fullSource 20000 (500 * j) acc reqs =
        (acc ++ List.replicate (500 * d) blankRec,
         reqs ++ (List.range d).map (fun i => 500 * (j + i))) := by
  intro d
  induction d with
  | zero =>
    intro j acc reqs hj hl
    rw [fetchLoop_stop fullSource 20000 (500 * j) acc reqs (by omega)]
    simp
  | succ d ih =>
    intro j acc reqs hj hl
    rw [fetchLoop_step_full fullSource 20000 (500 * j) acc reqs
      (List.replicate 500 blankRec) (by omega) (by omega) rfl
      (by simp only [List.length_replicate]; omega)
      (by simp only [List.length_replicate]; omega)]
    have hoff : 500 * j + 500 = 500 * (j + 1) := by ring
    rw [hoff]
    rw [ih (j + 1) (acc ++ List.replicate 500 blankRec) (reqs ++ [500 * j])
      (by omega)
      (by simp only [List.length_append, List.length_replicate, hl]; ring)]
    simp only [Prod.mk.injEq]
    constructor
    · rw [List.append_assoc, show 500 * (d + 1) = 500 + 500 * d from by ring,
        List.replicate_add]
    · rw [List.append_assoc]
      congr 1
      rw [List.range_succ_eq_map, List.map_cons, List.map_map, List.singleton_append]
      have hhead : 500 * (j + 0) = 500 * j := by ring
      rw [hhead]
      congr 1
      apply List.map_congr_left
      intro i _
      simp only [Function.comp_apply]
      omega

/-- Claim C3 is false as stated: with a budget above the ceiling, after the
offset has reached 10000 the fetcher still issues one more page request at
offset exactly 10000 (the guard is offset less-or-equal 10000), as the full
request trace against an always-full source shows. -/
theorem request_at_ceiling_offset :
    (get_all_user_activity fullSource 20000).2 =
      (List.range 21).map (fun i => 500 * i) ∧
    (10000 : Nat) ∈ (get_all_user_activity fullSource 20000).2 ∧
    (get_all_user_activity fullSource 20000).1.length = 10500 := by
  have h := fullSource_loop 21 0 [] [] (by omega) (by simp)
  have h0 : (500 : Nat) * 0 = 0 := by ring
  rw [h0] at h
  unfold get_all_user_activity
  rw [h]
  refine ⟨?_, ?_, ?_⟩
  · rw [List.nil_append]
    apply List.map_congr_left
    intro i _
    omega
  · simp only [List.nil_append, List.mem_map, List.mem_range]
    exact ⟨20, by omega, by norm_num⟩
  · rw [List.nil_append, List.length_replicate]

/-- Claim C3 as amended: the fetcher never issues a page request at an
offset strictly beyond the 10000 ceiling (though it does issue one at
exactly 10000 when the budget allows), and for every source and requested
maximum at most 21 page requests are made, so pagination terminates at the
ceiling even against an unbounded remote dataset. -/
theorem offsets_bounded_and_terminate :
    (∀ (source : Source) (max_records : Nat),
      ∀ o ∈ (get_all_user_activity source max_records).2, o ≤ 10000) ∧
    (∀ (source : Source) (max_records : Nat),
      (get_all_user_activity source max_records).2.length ≤ 21) := by
  constructor
  · intro source mr o ho
    exact fetchLoop_offsets_le source mr 10001 0 [] [] (by omega) (by simp) o ho
  · intro source mr
    have h := fetchLoop_reqs_count source mr 10001 0 [] [] (by omega) (by norm_num)
    simpa using h

theorem offsets_bounded_witness :
    (0 : Nat) ∈ (get_all_user_activity fullSource 20000).2 ∧ (0 : Nat) ≤ 10000 := by
  have hmem : (0 : Nat) ∈ (get_all_user_activity fullSource 20000).2 := by
    have h := fullSource_loop 21 0 [] [] (by omega) (by simp)
    have h0 : (500 : Nat) * 0 = 0 := by ring
    rw [h0] at h
    unfold get_all_user_activity
    rw [h]
    simp only [List.nil_append, List.mem_map, List.mem_range]
    exact ⟨0, by omega, by norm_num⟩
  exact ⟨hmem, offsets_bounded_and_terminate.1 fullSource 20000 0 hmem⟩

/-- Claim C8: against a source answering pages of 500, 500 and 200 records,
with a budget above 1000 the fetcher issues exactly the three requests at
offsets 0, 500 and 1000 and returns all 1200 records in page order: the
short page is included and stops the pagination. -/
theorem pagination_three_pages (source : Source) (max_records : Nat)
    (p0 p1 p2 : List ActivityRecord)
    (h0 : source 0 = some p0) (h1 : source 500 = some p1) (h2 : source 1000 = some p2)
    (l0 : p0.length = 500) (l1 : p1.length = 500) (l2 : p2.length = 200)
    (hmax : 1000 < max_records) :
    get_all_user_activity source max_records = (p0 ++ p1 ++ p2, [0, 500, 1000]) ∧
    (p0 ++ p1 ++ p2).length = 1200 := by
  constructor
  · unfold get_all_user_activity
    rw [fetchLoop_step_full source max_records 0 [] [] p0
      (by simp only [List.length_nil]; omega) (by omega) h0
      (by rw [l0]; omega) (by rw [l0]; omega)]
    rw [show (0 : Nat) + 500 = 500 from rfl]
    rw [fetchLoop_step_full source max_records 500 ([] ++ p0) ([] ++ [0]) p1
      (by rw [List.nil_append, l0]; omega) (by omega) h1
      (by rw [l1]; omega) (by rw [l1]; omega)]
    rw [show (500 : Nat) + 500 = 1000 from rfl]
    rw [fetchLoop_step_short source max_records 1000 ([] ++ p0 ++ p1)
      ([] ++ [0] ++ [500]) p2
      (by simp only [List.nil_append, List.length_append, l0, l1]; omega) (by omega) h2
      (by rw [l2]; omega) (by rw [l2]; omega)]
    simp
  · simp [l0, l1, l2]

/-- The witness source: pages of sizes 500, 500 and 200, then nothing. -/
def threePages : Source := fun o =>
  if o = 0 then some (List.replicate 500 blankRec)
  else if o = 500 then some (List.replicate 500 blankRec)
  else if o = 1000 then some (List.replicate 200 blankRec)
  else some []

theorem pagination_three_pages_witness :
    get_all_user_activity threePages 10000 =
      (List.replicate 500 blankRec ++ List.replicate 500 blankRec ++
        List.replicate 200 blankRec, [0, 500, 1000]) ∧
    (List.replicate 500 blankRec ++ List.replicate 500 blankRec ++
      List.replicate 200 blankRec).length = 1200 :=
  pagination_three_pages threePages 10000 _ _ _ rfl rfl rfl
    (List.length_replicate 500 blankRec) (List.length_replicate 500 blankRec)
    (List.length_replicate 200 blankRec) (by omega)

/-- Claim C10: pages are appended whole, so the fetcher can overshoot the
requested maximum by at most one page minus one record — the batch length
is bounded by max_records + 499 for any source honouring the 500-record
page size — and the always-full source with a budget of 600 makes it return
1000 records, strictly more than requested. -/
theorem fetch_overshoot_bound :
    (∀ (source : Source) (max_records : Nat),
      (∀ o p, source o = some p → p.length ≤ 500) →
      (get_all_user_activity source max_records).1.length ≤ max_records + 499) ∧
    ((get_all_user_activity fullSource 600).1.length = 1000 ∧ 600 < 1000) := by
  constructor
  · intro source mr hpage
    exact fetchLoop_length_bound source mr hpage 10001 0 [] [] (by omega) (by simp)
  · refine ⟨?_, by omega⟩
    unfold get_all_user_activity
    rw [fetchLoop_step_full fullSource 600 0 [] [] (List.replicate 500 blankRec)
      (by simp only [List.length_nil]; omega) (by omega) rfl
      (by simp only [List.length_replicate]; omega)
      (by simp only [List.length_replicate]; omega)]
    rw [show (0 : Nat) + 500 = 500 from rfl]
    rw [fetchLoop_step_full fullSource 600 500 ([] ++ List.replicate 500 blankRec)
      ([] ++ [0]) (List.replicate 500 blankRec)
      (by simp only [List.nil_append, List.length_replicate]; omega) (by omega) rfl
      (by simp only [List.length_replicate]; omega)
      (by simp only [List.length_replicate]; omega)]
    rw [show (500 : Nat) + 500 = 1000 from rfl]
    rw [fetchLoop_stop fullSource 600 1000 _ _
      (by simp only [List.nil_append, List.length_append, List.length_replicate]; omega)]
    show ((([] : List ActivityRecord) ++ List.replicate 500 blankRec ++
      List.replicate 500 blankRec)).length = 1000
    simp only [List.nil_append, List.length_append, List.length_replicate]

theorem fetch_overshoot_witness :
    (get_all_user_activity fullSource 600).1.length ≤ 600 + 499 :=
  fetch_overshoot_bound.1 fullSource 600 (fun o p hp => by
    have hrep : some (List.replicate 500 blankRec) = some p := hp
    have hrep2 : List.replicate 500 blankRec = p := Option.some.inj hrep
    rw [← hrep2, List.length_replicate])

end Collect
